import Mathlib

/-!
Shallow embedding of `magenta/models/structured_melody_rnn/structured_melody_rnn_graph.py`.

Tensors are modelled per batch element as (nested) lists over `ℝ` (idealized
real arithmetic in place of float32); the trainable window encoder and the
recurrent layers are abstracted as function parameters, since their weights
are external trainable state.  Integer-valued metric arithmetic
(train-mode accuracy bookkeeping) is modelled over `ℚ`, where it is exact.
-/

namespace StructuredMelodyRnn

noncomputable section

/-- Dot product of two vectors, truncating to the shorter length
(lengths always agree at use sites). -/
def dotProduct (xs ys : List ℝ) : ℝ :=
  (List.zipWith (fun x y => x * y) xs ys).sum

/-- Column `c` of a matrix stored as a list of rows (missing entries read 0,
matching a well-formed dense tensor at in-range indices). -/
def matCol (b : List (List ℝ)) (c : ℕ) : List ℝ :=
  b.map (fun row => row.getD c 0)

/-- `tf.matmul a b` where the number of columns of `b` is `cols`:
entry `(i, c)` is the dot product of row `i` of `a` with column `c` of `b`. -/
def matmul (a b : List (List ℝ)) (cols : ℕ) : List (List ℝ) :=
  a.map (fun r => (List.range cols).map (fun c => dotProduct r (matCol b c)))

/-- `tf.matmul a b transpose_b=True`: entry `(i, j)` is the dot product of
row `i` of `a` with row `j` of `b`. -/
def matmulTransposeB (a b : List (List ℝ)) : List (List ℝ) :=
  a.map (fun r => b.map (fun br => dotProduct r br))

/-- `tf.one_hot l num_classes`: the length-`num_classes` 0/1 indicator vector
of class `l` (all zeros when `l ≥ num_classes`, as in TensorFlow). -/
def oneHot (l : ℕ) (numClasses : ℕ) : List ℝ :=
  (List.range numClasses).map (fun c => if l = c then (1 : ℝ) else 0)

/-- `tf.zeros_like` on a vector. -/
def zerosLike (xs : List ℝ) : List ℝ :=
  xs.map (fun _ => (0 : ℝ))

/-- `tf.nn.softmax` along a vector: `exp xᵢ / Σⱼ exp xⱼ`.  (TensorFlow
subtracts the maximum before exponentiating; over `ℝ` that rescaling cancels,
so this is the same function.)  On the empty vector it returns the empty
vector. -/
def softmax (xs : List ℝ) : List ℝ :=
  xs.map (fun x => Real.exp x / (xs.map Real.exp).sum)

/-!  `extract_input_windows` (source lines 61-81).  One batch element: the
input sequence is a list of `numSteps` rows of `inputSize` features.
`tf.extract_image_patches` with `ksizes = [1, window_size, input_size, 1]`,
unit strides/rates and VALID padding yields, for each of the
`numSteps - window_size + 1` start positions, the row-major flattening of
`window_size` consecutive steps; the trailing `tf.reshape` reinterprets each
flat patch as an `input_size × window_size` matrix. -/

/-- The VALID patch at each start position `i`: steps `[i, i + windowSize)`
flattened row-major. -/
def extractImagePatchesRows (inputs : List (List ℝ)) (windowSize : ℕ) :
    List (List ℝ) :=
  (List.range (inputs.length + 1 - windowSize)).map
    (fun i => ((inputs.drop i).take windowSize).flatten)

/-- `tf.reshape` of a flat buffer into `rows` rows of `cols` entries
(row-major). -/
def reshapeRows (rows cols : ℕ) (xs : List ℝ) : List (List ℝ) :=
  match rows with
  | 0 => []
  | r + 1 => xs.take cols :: reshapeRows r cols (xs.drop cols)

/-- `extract_input_windows` for one batch element: each patch is reshaped to
an `input_size × window_size` matrix (the reshape on source line 81). -/
def extract_input_windows (inputs : List (List ℝ))
    (inputSize windowSize : ℕ) : List (List (List ℝ)) :=
  (extractImagePatchesRows inputs windowSize).map (reshapeRows inputSize windowSize)

/-!  `similarity_weighted_attention` (source lines 113-149).  One batch
element: `self_similarity` is a `num_input_steps × num_label_steps` matrix.
`steps = tf.range(num_label_steps - num_input_steps + 1, num_label_steps + 1)`
pairs query step `i` with the cut position
`p i = num_label_steps - num_input_steps + 1 + i`. -/

/-- The body of `similarity_to_attention` (source lines 139-142): softmax of
the first `step` similarities, zero-filled to the full key length. -/
def similarity_to_attention (step : ℕ) (simRow : List ℝ) : List ℝ :=
  softmax (simRow.take step) ++ zerosLike (simRow.drop step)

/-- The cut position for query step `i` (element `i` of `steps`, source
line 136), written with truncated subtraction; it agrees with the source's
signed value whenever `num_input_steps ≤ num_label_steps + 1`, which holds in
every mode of `build_graph`. -/
def attentionStep (numLabelSteps numInputSteps i : ℕ) : ℕ :=
  numLabelSteps + 1 - numInputSteps + i

/-- The per-step attention rows produced by the `tf.map_fn` over
`(steps, permuted_self_similarity)` (source lines 136-147); the number of key
steps is read off the matrix shape. -/
def attentionWeights (selfSimilarity : List (List ℝ)) : List (List ℝ) :=
  (List.range selfSimilarity.length).map (fun i =>
    similarity_to_attention
      (attentionStep (selfSimilarity.headD []).length selfSimilarity.length i)
      (selfSimilarity.getD i []))

/-- `similarity_weighted_attention` (source lines 113-149): the attention
rows right-multiplied by the one-hot-encoded label matrix. -/
def similarity_weighted_attention (labels : List ℕ)
    (selfSimilarity : List (List ℝ)) (numClasses : ℕ) : List (List ℝ) :=
  matmul (attentionWeights selfSimilarity)
    (labels.map (fun l => oneHot l numClasses)) numClasses

/-!  The similarity wiring of `build_graph` (source lines 221-224). -/

/-- `target_encodings = tf.concat([past_encodings, encodings[:, :-1, :]], 1)`
(source line 223). -/
def target_encodings (pastEncodings encodings : List (List ℝ)) :
    List (List ℝ) :=
  pastEncodings ++ encodings.dropLast

/-- `self_similarity = tf.matmul(encodings, target_encodings,
transpose_b=True)` (source line 224). -/
def self_similarity (encodings pastEncodings : List (List ℝ)) :
    List (List ℝ) :=
  matmulTransposeB encodings (target_encodings pastEncodings encodings)

/-!  Mode-specific wiring of `build_graph` (source lines 170-229).  The mode
is a string, as in the source; the window encoder (the shared `conv2d` layer
of `encode_input_windows`, whose weights are external trainable state) is
abstracted as a function from one window matrix to one encoding vector. -/

/-- The failure raised on source lines 170-172 for a mode outside
`('train', 'eval', 'generate')` (a `ValueError` in the source; the spec calls
it `ConfigurationError`). -/
inductive ConfigurationError where
  | invalidMode (mode : String)
deriving DecidableEq, Repr

/-- `input_buffer`: zeros of shape `[window_size - 1, input_size]` in train
and eval modes (source lines 191-192), the externally supplied buffer in
generate mode (source lines 202-204). -/
def modeInputBuffer (mode : String) (windowSize inputSize : ℕ)
    (buffer : List (List ℝ)) : List (List ℝ) :=
  if mode = "generate" then buffer
  else List.replicate (windowSize - 1) (List.replicate inputSize 0)

/-- `past_encodings`: empty in train and eval modes (source line 194), the
externally supplied encodings in generate mode (source lines 207-208). -/
def modePastEncodings (mode : String) (past : List (List ℝ)) :
    List (List ℝ) :=
  if mode = "generate" then past else []

/-- `target_labels`: `labels[:, :-1]` in train and eval modes (source
line 196), all labels in generate mode (source line 209). -/
def modeTargetLabels (mode : String) (labels : List ℕ) : List ℕ :=
  if mode = "generate" then labels else labels.dropLast

/-- The tensors of the built graph that the windowing / similarity /
attention pipeline produces (source lines 211-229), per batch element. -/
structure BuiltGraph where
  padded_inputs : List (List ℝ)
  encodings : List (List ℝ)
  selfSimilarity : List (List ℝ)
  attention_inputs : List (List ℝ)
  targetLabels : List ℕ

/-- The graph pipeline once the mode has been validated (source lines
183-229): pad the inputs with the buffer, extract and encode windows,
compute the self-similarity against past-and-current-but-last encodings, and
take similarity-weighted attention over the target labels. -/
def buildCore (mode : String) (windowSize inputSize numClasses : ℕ)
    (encode : List (List ℝ) → List ℝ) (inputs : List (List ℝ))
    (labels : List ℕ) (inputBuffer pastEncodings : List (List ℝ)) :
    BuiltGraph :=
  let buf := modeInputBuffer mode windowSize inputSize inputBuffer
  let past := modePastEncodings mode pastEncodings
  let tlabels := modeTargetLabels mode labels
  let padded := buf ++ inputs
  let windows := extract_input_windows padded inputSize windowSize
  let encodings := windows.map encode
  let sim := self_similarity encodings past
  let att := similarity_weighted_attention tlabels sim numClasses
  ⟨padded, encodings, sim, att, tlabels⟩

/-- `build_graph` (source lines 152-333): validates the mode first (lines
170-172) and only then constructs the graph; an invalid mode yields the
error and no graph at all. -/
def build_graph (mode : String) (windowSize inputSize numClasses : ℕ)
    (encode : List (List ℝ) → List ℝ) (inputs : List (List ℝ))
    (labels : List ℕ) (inputBuffer pastEncodings : List (List ℝ)) :
    Except ConfigurationError BuiltGraph :=
  if mode = "train" ∨ mode = "eval" ∨ mode = "generate" then
    Except.ok (buildCore mode windowSize inputSize numClasses encode inputs
      labels inputBuffer pastEncodings)
  else
    Except.error (ConfigurationError.invalidMode mode)

/-!  The recurrent-cell dropout wiring (source lines 28-58 and 231-236) and
the generate-mode output head (source lines 314-318).  Each layer of
`make_rnn_cell` is wrapped in `tf.contrib.rnn.DropoutWrapper` with
`output_keep_prob = dropout_keep_prob`; the wrapper samples a random binary
mask and rescales by `1 / keep_prob`, and is the identity when
`keep_prob = 1`.  The layer transition functions themselves are abstracted
as parameters. -/

/-- The keep probability handed to `make_rnn_cell` by `build_graph` (source
lines 233-234): forced to `1.0` in generate mode. -/
def cellKeepProb (mode : String) (dropoutKeepProb : ℝ) : ℝ :=
  if mode = "generate" then 1 else dropoutKeepProb

/-- `DropoutWrapper` output dropout: identity at `keep_prob ≥ 1`, otherwise
multiply by the sampled binary mask and rescale by `1 / keep_prob`. -/
def dropoutOutput (keepProb : ℝ) (mask : List ℝ) (xs : List ℝ) : List ℝ :=
  if 1 ≤ keepProb then xs
  else List.zipWith (fun m x => m * x / keepProb) mask xs

/-- Run the stack of recurrent layers built by `make_rnn_cell` (source lines
45-56) on one step: each layer applies its transition function, then output
dropout with its own sampled mask. -/
def runCellLayers (keepProb : ℝ) :
    List (List ℝ → List ℝ) → List (List ℝ) → List ℝ → List ℝ
  | [], _, x => x
  | f :: fs, masks, x =>
      runCellLayers keepProb fs masks.tail
        (dropoutOutput keepProb (masks.headD []) (f x))

/-- The generate-mode output head (source lines 315-317):
`softmax(logits / temperature)`.  The source performs no validation of
`temperature`; the division is applied as given. -/
def generateSoftmax (logits : List ℝ) (temperature : ℝ) : List ℝ :=
  softmax (logits.map (fun l => l / temperature))

/-- The generate-mode step output as a function of the sampled dropout
masks: run the cell stack with the generate-mode keep probability, project
to logits (`tf.contrib.layers.linear`, abstracted as `proj`), and apply the
temperature softmax. -/
def generateStepOutput (dropoutKeepProb : ℝ)
    (layers : List (List ℝ → List ℝ)) (proj : List ℝ → List ℝ)
    (masks : List (List ℝ)) (x : List ℝ) (temperature : ℝ) : List ℝ :=
  generateSoftmax
    (proj (runCellLayers (cellKeepProb "generate" dropoutKeepProb) layers masks x))
    temperature

end

/-!  Train-mode accuracy metrics (source lines 255-270), over `ℚ`: the
flattened labels and predictions are integer class indices, and
`tf.to_float` indicator vectors combine exactly in rational arithmetic. -/

/-- `tf.to_float(tf.equal(labels_flat, predictions_flat))` (source lines
256-257). -/
def correct_predictions (labelsFlat predictionsFlat : List ℤ) : List ℚ :=
  List.zipWith (fun l p => if l = p then (1 : ℚ) else 0) labelsFlat predictionsFlat

/-- `tf.to_float(tf.not_equal(labels_flat, no_event_label))` (source
line 258). -/
def event_positions (noEventLabel : ℤ) (labelsFlat : List ℤ) : List ℚ :=
  labelsFlat.map (fun l => if l ≠ noEventLabel then (1 : ℚ) else 0)

/-- `tf.to_float(tf.equal(labels_flat, no_event_label))` (source line 259). -/
def no_event_positions (noEventLabel : ℤ) (labelsFlat : List ℤ) : List ℚ :=
  labelsFlat.map (fun l => if l = noEventLabel then (1 : ℚ) else 0)

/-- `accuracy = tf.reduce_mean(correct_predictions)` (source line 264). -/
def accuracy (labelsFlat predictionsFlat : List ℤ) : ℚ :=
  (correct_predictions labelsFlat predictionsFlat).sum / labelsFlat.length

/-- `event_accuracy` (source lines 265-267). -/
def event_accuracy (noEventLabel : ℤ) (labelsFlat predictionsFlat : List ℤ) : ℚ :=
  (List.zipWith (fun c e => c * e) (correct_predictions labelsFlat predictionsFlat)
    (event_positions noEventLabel labelsFlat)).sum /
  (event_positions noEventLabel labelsFlat).sum

/-- `no_event_accuracy` (source lines 268-270). -/
def no_event_accuracy (noEventLabel : ℤ) (labelsFlat predictionsFlat : List ℤ) : ℚ :=
  (List.zipWith (fun c e => c * e) (correct_predictions labelsFlat predictionsFlat)
    (no_event_positions noEventLabel labelsFlat)).sum /
  (no_event_positions noEventLabel labelsFlat).sum

/-!  General list access lemmas used throughout. -/

theorem getD_map_lt {α β : Type} (l : List α) (f : α → β) (d1 : α) (d2 : β)
    (i : ℕ) (h : i < l.length) : (l.map f).getD i d2 = f (l.getD i d1) := by
  simp [List.getD_eq_getElem?_getD, List.getElem?_map, List.getElem?_eq_getElem h]

theorem getD_map_range {α : Type} (f : ℕ → α) (d : α) (n i : ℕ) (h : i < n) :
    ((List.range n).map f).getD i d = f i := by
  simp [List.getD_eq_getElem?_getD, List.getElem?_map, List.getElem?_range h]

theorem getD_append_lt {α : Type} (a b : List α) (d : α) (i : ℕ)
    (h : i < a.length) : (a ++ b).getD i d = a.getD i d := by
  simp [List.getD_eq_getElem?_getD, List.getElem?_append_left h]

theorem getD_append_ge {α : Type} (a b : List α) (d : α) (i : ℕ)
    (h : a.length ≤ i) : (a ++ b).getD i d = b.getD (i - a.length) d := by
  simp [List.getD_eq_getElem?_getD, List.getElem?_append_right h]

theorem getD_take_lt {α : Type} (l : List α) (d : α) (n i : ℕ) (h : i < n) :
    (l.take n).getD i d = l.getD i d := by
  simp [List.getD_eq_getElem?_getD, List.getElem?_take, h]

/-!  Evaluation lemmas for the window extractor. -/

theorem reshapeRows_flatten (rows cols : ℕ) (xs : List ℝ)
    (h : xs.length = rows * cols) :
    (reshapeRows rows cols xs).flatten = xs := by
  induction rows generalizing xs with
  | zero =>
      have hnil : xs = [] := List.length_eq_zero.mp (by simpa using h)
      simp [reshapeRows, hnil]
  | succ r ih =>
      have hdrop : (xs.drop cols).length = r * cols := by
        rw [Nat.succ_mul] at h
        simp only [List.length_drop]
        omega
      calc (reshapeRows (r + 1) cols xs).flatten
          = xs.take cols ++ (reshapeRows r cols (xs.drop cols)).flatten := rfl
        _ = xs.take cols ++ xs.drop cols := by rw [ih (xs.drop cols) hdrop]
        _ = xs := List.take_append_drop cols xs

theorem window_slice_flatten_length (inputs : List (List ℝ))
    (inputSize w i : ℕ) (hrows : ∀ row ∈ inputs, row.length = inputSize)
    (hiw : i + w ≤ inputs.length) :
    ((inputs.drop i).take w).flatten.length = w * inputSize := by
  have hsub : ∀ row ∈ (inputs.drop i).take w, row.length = inputSize :=
    fun row hr => hrows row (List.drop_subset i inputs (List.take_subset w _ hr))
  have hcount : ((inputs.drop i).take w).length = w := by
    simp only [List.length_take, List.length_drop]
    omega
  have hrepl : ((inputs.drop i).take w).map List.length
      = List.replicate w inputSize := by
    apply List.eq_replicate_iff.mpr
    refine ⟨by simp only [List.length_map, hcount], ?_⟩
    intro b hb
    obtain ⟨row, hrow, hrowb⟩ := List.mem_map.mp hb
    exact hrowb ▸ hsub row hrow
  rw [List.length_flatten, hrepl]
  simp [List.sum_replicate, mul_comm]


theorem extractImagePatchesRows_count (inputs : List (List ℝ))
    (windowSize t : ℕ) (hw : 1 ≤ windowSize)
    (hlen : inputs.length = windowSize - 1 + t) :
    (extractImagePatchesRows inputs windowSize).length = t := by
  simp only [extractImagePatchesRows, List.length_map, List.length_range]
  omega

/-- C4: for every `window_size ≥ 1` and padded input of length
`window_size - 1 + T`, `extract_input_windows` produces exactly `T` windows;
window `i` holds exactly the consecutive steps `[i, i + window_size)` (its
entries, read in row-major order, are the flattening of those steps); and at
`window_size = 1` the extractor is the identity on the step sequence. -/
theorem extract_input_windows_count_and_content
    (inputs : List (List ℝ)) (inputSize windowSize t : ℕ)
    (hrows : ∀ row ∈ inputs, row.length = inputSize)
    (hw : 1 ≤ windowSize)
    (hlen : inputs.length = windowSize - 1 + t) :
    (extract_input_windows inputs inputSize windowSize).length = t ∧
    (∀ i, i < t →
      ((extract_input_windows inputs inputSize windowSize).getD i []).flatten
        = ((inputs.drop i).take windowSize).flatten) ∧
    (windowSize = 1 →
      (extract_input_windows inputs inputSize windowSize).map List.flatten
        = inputs) := by
  have hcount := extractImagePatchesRows_count inputs windowSize t hw hlen
  have hwin : ∀ i, i < t →
      (extract_input_windows inputs inputSize windowSize).getD i []
        = reshapeRows inputSize windowSize
            (((inputs.drop i).take windowSize).flatten) := by
    intro i hi
    unfold extract_input_windows
    rw [getD_map_lt _ _ [] [] i (by rw [hcount]; exact hi)]
    congr 1
    unfold extractImagePatchesRows
    exact getD_map_range _ [] _ i (by omega)
  have hcontent : ∀ i, i < t →
      ((extract_input_windows inputs inputSize windowSize).getD i []).flatten
        = ((inputs.drop i).take windowSize).flatten := by
    intro i hi
    rw [hwin i hi]
    apply reshapeRows_flatten
    rw [window_slice_flatten_length inputs inputSize windowSize i hrows (by omega)]
    exact mul_comm _ _
  refine ⟨?_, hcontent, ?_⟩
  · unfold extract_input_windows
    rw [List.length_map, hcount]
  · intro h1
    subst h1
    have hlen1 : inputs.length = t := by omega
    have hwlen : (extract_input_windows inputs inputSize 1).length = t := by
      unfold extract_input_windows
      rw [List.length_map, hcount]
    apply List.ext_getElem (by rw [List.length_map, hwlen, hlen1])
    intro i h1i h2i
    rw [List.getElem_map]
    have hit : i < t := by
      rw [List.length_map, hwlen] at h1i
      exact h1i
    have hD : (extract_input_windows inputs inputSize 1)[i]
        = (extract_input_windows inputs inputSize 1).getD i [] := by
      simp [List.getD_eq_getElem?_getD, List.getElem?_eq_getElem (by rw [hwlen]; exact hit)]
    rw [hD, hcontent i hit, List.drop_eq_getElem_cons h2i]
    rw [List.take_succ_cons, List.take_zero, List.flatten_cons, List.flatten_nil,
      List.append_nil]

/-- Witness for C4 at `inputs = [[1],[2],[3]]`, `input_size = 1`,
`window_size = 2`, `T = 2`. -/
theorem extract_input_windows_count_and_content_witness :
    (∀ row ∈ ([[(1:ℝ)], [2], [3]] : List (List ℝ)), row.length = 1) ∧
    1 ≤ 2 ∧
    ([[(1:ℝ)], [2], [3]] : List (List ℝ)).length = 2 - 1 + 2 ∧
    ((extract_input_windows [[(1:ℝ)], [2], [3]] 1 2).length = 2 ∧
     (∀ i, i < 2 →
       ((extract_input_windows [[(1:ℝ)], [2], [3]] 1 2).getD i []).flatten
         = ((([[(1:ℝ)], [2], [3]] : List (List ℝ)).drop i).take 2).flatten) ∧
     (2 = 1 →
       (extract_input_windows [[(1:ℝ)], [2], [3]] 1 2).map List.flatten
         = [[(1:ℝ)], [2], [3]])) := by
  refine ⟨by simp, by norm_num, by simp, ?_⟩
  exact extract_input_windows_count_and_content [[(1:ℝ)], [2], [3]] 1 2 2
    (by simp) (by norm_num) (by simp)

/-!  Softmax and attention-row lemmas. -/

theorem sum_map_div (xs : List ℝ) (c : ℝ) :
    (xs.map (fun x => x / c)).sum = xs.sum / c := by
  induction xs with
  | nil => simp
  | cons a l ih => simp [ih, add_div]

theorem exp_sum_pos (xs : List ℝ) (h : xs ≠ []) :
    0 < (xs.map Real.exp).sum := by
  apply List.sum_pos
  · intro x hx
    obtain ⟨y, _, hyx⟩ := List.mem_map.mp hx
    exact hyx ▸ Real.exp_pos y
  · simpa using h

theorem softmax_length (xs : List ℝ) : (softmax xs).length = xs.length := by
  simp [softmax]

theorem softmax_sum_one (xs : List ℝ) (h : xs ≠ []) : (softmax xs).sum = 1 := by
  have hmm : softmax xs
      = (xs.map Real.exp).map (fun y => y / (xs.map Real.exp).sum) := by
    rw [List.map_map]
    rfl
  rw [hmm, sum_map_div]
  exact div_self (ne_of_gt (exp_sum_pos xs h))

theorem softmax_getD (xs : List ℝ) (j : ℕ) (h : j < xs.length) :
    (softmax xs).getD j 0 = Real.exp (xs.getD j 0) / (xs.map Real.exp).sum :=
  getD_map_lt xs _ 0 0 j h

theorem zerosLike_getD (l : List ℝ) (k : ℕ) : (zerosLike l).getD k 0 = 0 := by
  unfold zerosLike
  rcases Nat.lt_or_ge k l.length with hk | hk
  · exact getD_map_lt l _ 0 0 k hk
  · rw [List.getD_eq_getElem?_getD, List.getElem?_eq_none (by simpa using hk)]
    rfl

theorem similarity_to_attention_getD_zero (p j : ℕ) (row : List ℝ)
    (hpj : p ≤ j) : (similarity_to_attention p row).getD j 0 = 0 := by
  unfold similarity_to_attention
  have hlen : (softmax (row.take p)).length ≤ j := by
    rw [softmax_length, List.length_take]
    omega
  rw [getD_append_ge _ _ 0 j hlen]
  exact zerosLike_getD _ _

theorem attentionWeights_length (sim : List (List ℝ)) :
    (attentionWeights sim).length = sim.length := by
  simp [attentionWeights]

theorem attentionWeights_row (sim : List (List ℝ)) (i : ℕ)
    (hi : i < sim.length) :
    (attentionWeights sim).getD i []
      = similarity_to_attention
          (attentionStep (sim.headD []).length sim.length i)
          (sim.getD i []) := by
  unfold attentionWeights
  exact getD_map_range _ [] _ i hi

theorem headD_length_of_rows (sim : List (List ℝ)) (numKey : ℕ)
    (hrows : ∀ row ∈ sim, row.length = numKey) (hne : sim ≠ []) :
    (sim.headD []).length = numKey := by
  cases sim with
  | nil => exact absurd rfl hne
  | cons r rs => exact hrows r (by simp)

theorem row_length_of_rows (sim : List (List ℝ)) (numKey i : ℕ)
    (hrows : ∀ row ∈ sim, row.length = numKey) (hi : i < sim.length) :
    (sim.getD i []).length = numKey := by
  have hg : sim.getD i [] = sim[i] := by
    simp [List.getD_eq_getElem?_getD, List.getElem?_eq_getElem hi]
  rw [hg]
  exact hrows _ (List.getElem_mem hi)

/-- C1: in `similarity_weighted_attention`, query step `i` is aligned with
position `p i = num_key_steps - num_query_steps + i + 1`; its attention
weights are the softmax over key positions `< p i` (each such weight is
`exp simᵢⱼ` normalized by the sum over the visible positions), every weight
at a position `≥ p i` is exactly `0`, and whenever at least one position is
visible the weights over the visible positions sum exactly to `1`. -/
theorem attention_causal_softmax
    (sim : List (List ℝ)) (numKey i : ℕ)
    (hrows : ∀ row ∈ sim, row.length = numKey)
    (hi : i < sim.length)
    (hq : sim.length ≤ numKey + 1) :
    (∀ j, j < attentionStep numKey sim.length i →
      ((attentionWeights sim).getD i []).getD j 0
        = Real.exp ((sim.getD i []).getD j 0)
          / (((sim.getD i []).take (attentionStep numKey sim.length i)).map
              Real.exp).sum) ∧
    (∀ j, attentionStep numKey sim.length i ≤ j →
      ((attentionWeights sim).getD i []).getD j 0 = 0) ∧
    (1 ≤ attentionStep numKey sim.length i →
      (((attentionWeights sim).getD i []).take
          (attentionStep numKey sim.length i)).sum = 1) := by
  have hne : sim ≠ [] := List.ne_nil_of_length_pos (by omega)
  have hhead := headD_length_of_rows sim numKey hrows hne
  have hrowlen := row_length_of_rows sim numKey i hrows hi
  have hrowi := attentionWeights_row sim i hi
  rw [hhead] at hrowi
  have hpK : attentionStep numKey sim.length i ≤ numKey := by
    unfold attentionStep
    omega
  have htake : ((sim.getD i []).take (attentionStep numKey sim.length i)).length
      = attentionStep numKey sim.length i := by
    rw [List.length_take, hrowlen]
    omega
  refine ⟨?_, ?_, ?_⟩
  · intro j hj
    rw [hrowi]
    unfold similarity_to_attention
    rw [getD_append_lt _ _ 0 j (by rw [softmax_length, htake]; exact hj)]
    rw [softmax_getD _ j (by rw [htake]; exact hj)]
    rw [getD_take_lt _ 0 _ j hj]
  · intro j hj
    rw [hrowi]
    exact similarity_to_attention_getD_zero _ j _ hj
  · intro hp1
    rw [hrowi]
    unfold similarity_to_attention
    have hsl : (softmax ((sim.getD i []).take (attentionStep numKey sim.length i))).length
        = attentionStep numKey sim.length i := by
      rw [softmax_length, htake]
    rw [List.take_left' hsl]
    exact softmax_sum_one _ (List.ne_nil_of_length_pos (by rw [htake]; omega))

/-- Witness for C1 at `sim = [[0, 0]]` (one query step, two key steps, so
`p 0 = 2`). -/
theorem attention_causal_softmax_witness :
    (∀ row ∈ ([[(0:ℝ), 0]] : List (List ℝ)), row.length = 2) ∧
    0 < ([[(0:ℝ), 0]] : List (List ℝ)).length ∧
    ([[(0:ℝ), 0]] : List (List ℝ)).length ≤ 2 + 1 ∧
    ((∀ j, j < attentionStep 2 ([[(0:ℝ), 0]] : List (List ℝ)).length 0 →
      ((attentionWeights [[(0:ℝ), 0]]).getD 0 []).getD j 0
        = Real.exp ((([[(0:ℝ), 0]] : List (List ℝ)).getD 0 []).getD j 0)
          / (((([[(0:ℝ), 0]] : List (List ℝ)).getD 0 []).take
              (attentionStep 2 ([[(0:ℝ), 0]] : List (List ℝ)).length 0)).map
              Real.exp).sum) ∧
    (∀ j, attentionStep 2 ([[(0:ℝ), 0]] : List (List ℝ)).length 0 ≤ j →
      ((attentionWeights [[(0:ℝ), 0]]).getD 0 []).getD j 0 = 0) ∧
    (1 ≤ attentionStep 2 ([[(0:ℝ), 0]] : List (List ℝ)).length 0 →
      (((attentionWeights [[(0:ℝ), 0]]).getD 0 []).take
          (attentionStep 2 ([[(0:ℝ), 0]] : List (List ℝ)).length 0)).sum = 1)) := by
  refine ⟨by simp, by simp, by simp, ?_⟩
  exact attention_causal_softmax [[(0:ℝ), 0]] 2 0 (by simp) (by simp) (by simp)

/-!  Row shape of `matmul` and vanishing dot products, for the
attention-feature lemmas. -/

theorem matmul_row (a b : List (List ℝ)) (cols i : ℕ) (hi : i < a.length) :
    (matmul a b cols).getD i []
      = (List.range cols).map (fun c => dotProduct (a.getD i []) (matCol b c)) := by
  unfold matmul
  exact getD_map_lt a _ [] [] i hi

theorem dotProduct_of_left_zero (xs ys : List ℝ) (h : ∀ x ∈ xs, x = 0) :
    dotProduct xs ys = 0 := by
  induction xs generalizing ys with
  | nil => simp [dotProduct]
  | cons x xs ih =>
      cases ys with
      | nil => simp [dotProduct]
      | cons y ys =>
          have hx : x = 0 := h x (by simp)
          have ht : dotProduct xs ys = 0 := ih ys (fun z hz => h z (by simp [hz]))
          simp only [dotProduct, List.zipWith_cons_cons, List.sum_cons] at ht ⊢
          rw [hx, ht]
          ring

/-- C2: when the aligned position `p i` of query step `i` is `0` (no visible
key positions), the attention feature row produced by
`similarity_weighted_attention` is exactly the all-zero vector of length
`num_classes` (in particular it is well defined, with no `0/0` softmax
involved: the softmax is taken over the empty slice and contributes
nothing). -/
theorem attention_feature_zero_when_no_valid_keys
    (labels : List ℕ) (sim : List (List ℝ)) (numClasses numKey i : ℕ)
    (hrows : ∀ row ∈ sim, row.length = numKey)
    (hi : i < sim.length)
    (hp : attentionStep numKey sim.length i = 0) :
    (similarity_weighted_attention labels sim numClasses).getD i []
      = List.replicate numClasses 0 := by
  have hne : sim ≠ [] := List.ne_nil_of_length_pos (by omega)
  have hhead := headD_length_of_rows sim numKey hrows hne
  have hrowi := attentionWeights_row sim i hi
  rw [hhead, hp] at hrowi
  unfold similarity_weighted_attention
  rw [matmul_row _ _ numClasses i (by rw [attentionWeights_length]; exact hi)]
  apply List.eq_replicate_iff.mpr
  refine ⟨by simp, ?_⟩
  intro b hb
  obtain ⟨c, _, hcb⟩ := List.mem_map.mp hb
  rw [← hcb, hrowi]
  apply dotProduct_of_left_zero
  intro x hx
  unfold similarity_to_attention at hx
  simp only [List.take_zero, List.drop_zero] at hx
  have hx2 : x ∈ zerosLike (sim.getD i []) := by
    simpa [softmax] using hx
  unfold zerosLike at hx2
  obtain ⟨y, _, hyx⟩ := List.mem_map.mp hx2
  exact hyx.symm

/-- Witness for C2 at `sim = [[]]` (one query step, zero key steps, so
`p 0 = 0`) with one class. -/
theorem attention_feature_zero_when_no_valid_keys_witness :
    (∀ row ∈ ([[]] : List (List ℝ)), row.length = 0) ∧
    0 < ([[]] : List (List ℝ)).length ∧
    attentionStep 0 ([[]] : List (List ℝ)).length 0 = 0 ∧
    (similarity_weighted_attention [] [[]] 1).getD 0 []
      = List.replicate 1 0 := by
  refine ⟨by simp, by simp, by simp [attentionStep], ?_⟩
  exact attention_feature_zero_when_no_valid_keys [] [[]] 1 0 0
    (by simp) (by simp) (by simp [attentionStep])

/-- C3: the self-similarity tensor built on source lines 221-224 has one row
per query step, one column per target (key) step, and entry `(i, j)` equal to
the raw dot product of query encoding `i` with target encoding `j`, the
targets being the externally supplied past encodings followed by all current
encodings except the last; no masking is applied at this stage. -/
theorem self_similarity_is_dot_products
    (encodings pastEncodings : List (List ℝ)) (i j : ℕ)
    (hi : i < encodings.length)
    (hj : j < (target_encodings pastEncodings encodings).length) :
    (self_similarity encodings pastEncodings).length = encodings.length ∧
    (∀ row ∈ self_similarity encodings pastEncodings,
      row.length = (target_encodings pastEncodings encodings).length) ∧
    ((self_similarity encodings pastEncodings).getD i []).getD j 0
      = dotProduct (encodings.getD i [])
          ((target_encodings pastEncodings encodings).getD j []) := by
  unfold self_similarity matmulTransposeB
  refine ⟨by rw [List.length_map], ?_, ?_⟩
  · intro row hrow
    obtain ⟨r, _, hrw⟩ := List.mem_map.mp hrow
    rw [← hrw, List.length_map]
  · rw [getD_map_lt _ _ [] [] i hi, getD_map_lt _ _ [] 0 j hj]

/-- Witness for C3 at `encodings = [[1], [2]]`, `past_encodings = [[3]]`
(targets `[[3], [1]]`), entry `(0, 1)`. -/
theorem self_similarity_is_dot_products_witness :
    0 < ([[(1:ℝ)], [2]] : List (List ℝ)).length ∧
    1 < (target_encodings [[(3:ℝ)]] [[(1:ℝ)], [2]]).length ∧
    ((self_similarity [[(1:ℝ)], [2]] [[(3:ℝ)]]).length
        = ([[(1:ℝ)], [2]] : List (List ℝ)).length ∧
     (∀ row ∈ self_similarity [[(1:ℝ)], [2]] [[(3:ℝ)]],
       row.length = (target_encodings [[(3:ℝ)]] [[(1:ℝ)], [2]]).length) ∧
     ((self_similarity [[(1:ℝ)], [2]] [[(3:ℝ)]]).getD 0 []).getD 1 0
       = dotProduct (([[(1:ℝ)], [2]] : List (List ℝ)).getD 0 [])
           ((target_encodings [[(3:ℝ)]] [[(1:ℝ)], [2]]).getD 1 [])) := by
  refine ⟨by simp, by simp [target_encodings], ?_⟩
  exact self_similarity_is_dot_products [[(1:ℝ)], [2]] [[(3:ℝ)]] 0 1
    (by simp) (by simp [target_encodings])

/-!  Accuracy decomposition lemmas (train mode, source lines 255-270). -/

theorem correct_split (noEvent : ℤ) (ls ps : List ℤ)
    (h : ls.length = ps.length) :
    (List.zipWith (fun c e => c * e) (correct_predictions ls ps)
        (event_positions noEvent ls)).sum
      + (List.zipWith (fun c e => c * e) (correct_predictions ls ps)
          (no_event_positions noEvent ls)).sum
      = (correct_predictions ls ps).sum := by
  induction ls generalizing ps with
  | nil => simp [correct_predictions, event_positions, no_event_positions]
  | cons l ls ih =>
      cases ps with
      | nil => simp at h
      | cons p ps =>
          have h2 : ls.length = ps.length := by simpa using h
          have hih := ih ps h2
          simp only [correct_predictions, event_positions, no_event_positions,
            List.zipWith_cons_cons, List.map_cons, List.sum_cons] at hih ⊢
          have hc : (if l = p then (1:ℚ) else 0) * (if l ≠ noEvent then (1:ℚ) else 0)
              + (if l = p then (1:ℚ) else 0) * (if l = noEvent then (1:ℚ) else 0)
              = (if l = p then (1:ℚ) else 0) := by
            by_cases hl : l = noEvent <;> simp [hl]
          linarith [hih, hc]

theorem positions_count (noEvent : ℤ) (ls : List ℤ) :
    (event_positions noEvent ls).sum + (no_event_positions noEvent ls).sum
      = (ls.length : ℚ) := by
  induction ls with
  | nil => simp [event_positions, no_event_positions]
  | cons l ls ih =>
      simp only [event_positions, no_event_positions, List.map_cons,
        List.sum_cons, List.length_cons] at ih ⊢
      have hone : (if l ≠ noEvent then (1:ℚ) else 0)
          + (if l = noEvent then 1 else 0) = 1 := by
        by_cases hl : l = noEvent <;> simp [hl]
      push_cast
      linarith [ih, hone]

/-- C5: in train mode, for any flattened label/prediction sequence with at
least one event position and at least one no-event position, the overall
accuracy is the count-weighted combination of the event-conditioned and
no-event-conditioned accuracies. -/
theorem train_accuracy_decomposition
    (noEvent : ℤ) (ls ps : List ℤ)
    (hlen : ls.length = ps.length)
    (hE : 0 < (event_positions noEvent ls).sum)
    (hN : 0 < (no_event_positions noEvent ls).sum) :
    accuracy ls ps
      = ((event_positions noEvent ls).sum * event_accuracy noEvent ls ps
          + (no_event_positions noEvent ls).sum * no_event_accuracy noEvent ls ps)
        / ((event_positions noEvent ls).sum + (no_event_positions noEvent ls).sum) := by
  have hsum := correct_split noEvent ls ps hlen
  have hcount := positions_count noEvent ls
  unfold accuracy event_accuracy no_event_accuracy
  rw [mul_comm ((event_positions noEvent ls).sum),
    div_mul_cancel₀ _ (ne_of_gt hE),
    mul_comm ((no_event_positions noEvent ls).sum),
    div_mul_cancel₀ _ (ne_of_gt hN), hsum, ← hcount]

/-- Witness for C5 at `labels = [0, 1]`, `predictions = [0, 0]`,
`no_event_label = 0`: one event position and one no-event position. -/
theorem train_accuracy_decomposition_witness :
    ([0, 1] : List ℤ).length = ([0, 0] : List ℤ).length ∧
    0 < (event_positions 0 [0, 1]).sum ∧
    0 < (no_event_positions 0 [0, 1]).sum ∧
    accuracy [0, 1] [0, 0]
      = ((event_positions 0 [0, 1]).sum * event_accuracy 0 [0, 1] [0, 0]
          + (no_event_positions 0 [0, 1]).sum * no_event_accuracy 0 [0, 1] [0, 0])
        / ((event_positions 0 [0, 1]).sum + (no_event_positions 0 [0, 1]).sum) := by
  refine ⟨rfl, by norm_num [event_positions], by norm_num [no_event_positions], ?_⟩
  exact train_accuracy_decomposition 0 [0, 1] [0, 0] rfl
    (by norm_num [event_positions]) (by norm_num [no_event_positions])

/-!  Dropout lemmas for generate-mode determinism. -/

theorem dropoutOutput_one (mask xs : List ℝ) : dropoutOutput 1 mask xs = xs := by
  simp [dropoutOutput]

theorem runCellLayers_one_mask_free (layers : List (List ℝ → List ℝ)) :
    ∀ (m1 m2 : List (List ℝ)) (x : List ℝ),
      runCellLayers 1 layers m1 x = runCellLayers 1 layers m2 x := by
  induction layers with
  | nil => intro m1 m2 x; rfl
  | cons f fs ih =>
      intro m1 m2 x
      show runCellLayers 1 fs m1.tail (dropoutOutput 1 (m1.headD []) (f x))
        = runCellLayers 1 fs m2.tail (dropoutOutput 1 (m2.headD []) (f x))
      rw [dropoutOutput_one, dropoutOutput_one]
      exact ih m1.tail m2.tail (f x)

/-- C6: the generate-mode graph is deterministic: the keep probability handed
to the recurrent stack is forced to `1.0` (so `DropoutWrapper` is the
identity), and for identical state inputs, current inputs and temperature the
output softmax distribution is identical regardless of the dropout masks the
runtime would have sampled — the only stochastic element of the forward
computation. -/
theorem generate_mode_deterministic
    (dropoutKeepProb : ℝ) (layers : List (List ℝ → List ℝ))
    (proj : List ℝ → List ℝ) (masks1 masks2 : List (List ℝ))
    (x : List ℝ) (temperature : ℝ) :
    cellKeepProb "generate" dropoutKeepProb = 1 ∧
    generateStepOutput dropoutKeepProb layers proj masks1 x temperature
      = generateStepOutput dropoutKeepProb layers proj masks2 x temperature := by
  have hone : cellKeepProb "generate" dropoutKeepProb = 1 := by
    simp [cellKeepProb]
  refine ⟨hone, ?_⟩
  unfold generateStepOutput
  rw [hone, runCellLayers_one_mask_free layers masks1 masks2 x]

/-- C7: for any mode other than `train`, `eval` or `generate`, `build_graph`
returns the configuration error immediately — for every choice of the
remaining arguments the result is exactly the error value, so no graph
construction happens and no partial graph is returned. -/
theorem build_graph_invalid_mode_fails_fast
    (mode : String) (h1 : mode ≠ "train") (h2 : mode ≠ "eval")
    (h3 : mode ≠ "generate") (windowSize inputSize numClasses : ℕ)
    (encode : List (List ℝ) → List ℝ) (inputs : List (List ℝ))
    (labels : List ℕ) (inputBuffer pastEncodings : List (List ℝ)) :
    build_graph mode windowSize inputSize numClasses encode inputs labels
        inputBuffer pastEncodings
      = Except.error (ConfigurationError.invalidMode mode) := by
  unfold build_graph
  rw [if_neg]
  intro hcases
  rcases hcases with h | h | h
  · exact h1 h
  · exact h2 h
  · exact h3 h

/-- Witness for C7 at `mode = "sample"`. -/
theorem build_graph_invalid_mode_fails_fast_witness :
    ("sample" ≠ "train" ∧ "sample" ≠ "eval" ∧ "sample" ≠ "generate") ∧
    build_graph "sample" 1 1 1 (fun _ => []) [] [] [] []
      = Except.error (ConfigurationError.invalidMode "sample") := by
  refine ⟨⟨by decide, by decide, by decide⟩, ?_⟩
  exact build_graph_invalid_mode_fails_fast "sample" (by decide) (by decide)
    (by decide) 1 1 1 (fun _ => []) [] [] [] []

/-- C8 counterexample: the generate-mode output head (source lines 315-317)
performs no validation of the temperature.  Invoked at
`temperature = -1 ≤ 0` on logits `[0, 0]` it does not fail with a
configuration error — it has no error outcome at all — but simply computes
`softmax(logits / temperature)`, here the well-defined distribution
`[1/2, 1/2]`. -/
theorem generate_softmax_no_temperature_check :
    generateSoftmax [0, 0] (-1) = [1/2, 1/2] := by
  norm_num [generateSoftmax, softmax, Real.exp_zero]

/-- C8 (amended): in generate mode, the per-class output distribution equals
`softmax(logits / temperature)` elementwise, for every temperature — the
source contains no `temperature ≤ 0` check, so such an invocation does not
fail and the same formula is applied. -/
theorem generate_softmax_formula (logits : List ℝ) (temperature : ℝ) (c : ℕ)
    (hc : c < logits.length) :
    (generateSoftmax logits temperature).length = logits.length ∧
    (generateSoftmax logits temperature).getD c 0
      = Real.exp (logits.getD c 0 / temperature)
        / (logits.map (fun l => Real.exp (l / temperature))).sum := by
  unfold generateSoftmax
  refine ⟨by rw [softmax_length, List.length_map], ?_⟩
  rw [softmax_getD _ c (by rw [List.length_map]; exact hc)]
  rw [getD_map_lt logits _ 0 0 c hc, List.map_map]
  rfl

/-- Witness for the amended C8 at `logits = [0]`, `temperature = 2`,
class `0`. -/
theorem generate_softmax_formula_witness :
    0 < ([(0:ℝ)] : List ℝ).length ∧
    ((generateSoftmax [(0:ℝ)] 2).length = ([(0:ℝ)] : List ℝ).length ∧
     (generateSoftmax [(0:ℝ)] 2).getD 0 0
       = Real.exp (([(0:ℝ)] : List ℝ).getD 0 0 / 2)
         / (([(0:ℝ)] : List ℝ).map (fun l => Real.exp (l / 2))).sum) := by
  refine ⟨by norm_num, ?_⟩
  exact generate_softmax_formula [(0:ℝ)] 2 0 (by norm_num)

/-- C9 counterexample: `extract_input_windows` (source lines 61-81) contains
no validation of `window_size` and cannot raise a configuration error.  At
`window_size = 0` on the one-step input `[[1]]` it does not fail but returns
the degenerate value consisting of two windows, each a single empty row. -/
theorem extract_input_windows_no_size_check :
    extract_input_windows [[(1:ℝ)]] 1 0 = [[[]], [[]]] := by
  simp [extract_input_windows, extractImagePatchesRows, reshapeRows,
    List.range_succ]

/-- C9 (amended): the window extractor performs no `window_size` validation
and never raises a configuration error; at the non-positive size `0` it is
still a total function, producing `num_steps + 1` (degenerate, empty)
windows for every input — any failure would come from the underlying tensor
library, not from this module.  It has no side effects (it is a pure
function of its inputs). -/
theorem extract_input_windows_zero_window_total
    (inputs : List (List ℝ)) (inputSize : ℕ) :
    (extract_input_windows inputs inputSize 0).length = inputs.length + 1 := by
  simp [extract_input_windows, extractImagePatchesRows]

/-!  Helpers for the no-label-leakage property. -/

theorem getD_of_ge {α : Type} (l : List α) (d : α) (i : ℕ)
    (h : l.length ≤ i) : l.getD i d = d := by
  rw [List.getD_eq_getElem?_getD, List.getElem?_eq_none h]
  rfl

theorem getD_dropLast_lt {α : Type} (l : List α) (d : α) (j : ℕ)
    (h : j < l.length - 1) : l.dropLast.getD j d = l.getD j d := by
  rw [List.getD_eq_getElem?_getD, List.getD_eq_getElem?_getD,
    List.getElem?_dropLast, if_pos h]

theorem matmul_length (a b : List (List ℝ)) (cols : ℕ) :
    (matmul a b cols).length = a.length := by
  simp [matmul]

theorem dotProduct_congr (xs ys zs : List ℝ) (hlen : ys.length = zs.length)
    (h : ∀ j, ys.getD j 0 = zs.getD j 0 ∨ xs.getD j 0 = 0) :
    dotProduct xs ys = dotProduct xs zs := by
  induction ys generalizing xs zs with
  | nil =>
      cases zs with
      | nil => rfl
      | cons z zs => simp at hlen
  | cons y ys ih =>
      cases zs with
      | nil => simp at hlen
      | cons z zs =>
          cases xs with
          | nil => simp [dotProduct]
          | cons x xs =>
              have h0 := h 0
              simp only [List.getD_cons_zero] at h0
              have htail : ∀ j, ys.getD j 0 = zs.getD j 0 ∨ xs.getD j 0 = 0 := by
                intro j
                simpa using h (j + 1)
              have hl2 : ys.length = zs.length := by simpa using hlen
              have ht := ih xs zs hl2 htail
              have e1 : dotProduct (x :: xs) (y :: ys) = x * y + dotProduct xs ys := by
                simp [dotProduct]
              have e2 : dotProduct (x :: xs) (z :: zs) = x * z + dotProduct xs zs := by
                simp [dotProduct]
              rw [e1, e2, ht]
              rcases h0 with he | hx
              · rw [he]
              · rw [hx]
                ring

/-- Rows of `similarity_weighted_attention` depend only on the labels at
positions visible to that row: if two label sequences of the same length
agree at every position below the cut position `p i`, row `i` of the
attention feature is identical. -/
theorem similarity_weighted_attention_row_visible_labels
    (l1 l2 : List ℕ) (sim : List (List ℝ)) (numClasses numKey i : ℕ)
    (hrows : ∀ row ∈ sim, row.length = numKey)
    (hlen : l1.length = l2.length)
    (hagree : ∀ j, j < attentionStep numKey sim.length i →
      l1.getD j 0 = l2.getD j 0) :
    (similarity_weighted_attention l1 sim numClasses).getD i []
      = (similarity_weighted_attention l2 sim numClasses).getD i [] := by
  rcases Nat.lt_or_ge i sim.length with hi | hi
  · have hne : sim ≠ [] := List.ne_nil_of_length_pos (by omega)
    have hhead := headD_length_of_rows sim numKey hrows hne
    unfold similarity_weighted_attention
    rw [matmul_row _ _ _ i (by rw [attentionWeights_length]; exact hi),
      matmul_row _ _ _ i (by rw [attentionWeights_length]; exact hi)]
    apply List.map_congr_left
    intro c _
    apply dotProduct_congr
    · simp [matCol, hlen]
    · intro j
      rcases Nat.lt_or_ge j (attentionStep numKey sim.length i) with hj | hj
      · left
        rcases Nat.lt_or_ge j l1.length with hjl | hjl
        · unfold matCol
          rw [getD_map_lt _ _ [] 0 j (by rw [List.length_map]; exact hjl),
            getD_map_lt _ _ [] 0 j (by rw [List.length_map, ← hlen]; exact hjl)]
          rw [getD_map_lt l1 _ 0 [] j hjl,
            getD_map_lt l2 _ 0 [] j (by rw [← hlen]; exact hjl)]
          rw [hagree j hj]
        · rw [getD_of_ge _ 0 j (by simp only [matCol, List.length_map]; omega),
            getD_of_ge _ 0 j (by simp only [matCol, List.length_map]; omega)]
      · right
        rw [attentionWeights_row sim i hi, hhead]
        exact similarity_to_attention_getD_zero _ j _ hj
  · unfold similarity_weighted_attention
    rw [getD_of_ge _ [] i (by rw [matmul_length, attentionWeights_length]; exact hi),
      getD_of_ge _ [] i (by rw [matmul_length, attentionWeights_length]; exact hi)]

/-- C10: in train and eval modes there is no label leakage into the
attention feature.  The wiring makes the past encodings empty, the input
buffer pure zero padding and the target labels the label sequence without
its final element, so the aligned position of query step `i` is `i` itself:
for any two label sequences of equal length agreeing at positions `< i`
(and identical inputs), the attention feature row at step `i` is
identical. -/
theorem buildCore_train_eval_no_label_leakage
    (mode : String) (hm : mode = "train" ∨ mode = "eval")
    (windowSize inputSize numClasses : ℕ)
    (encode : List (List ℝ) → List ℝ) (inputs : List (List ℝ))
    (l1 l2 : List ℕ) (buffer pastEnc : List (List ℝ)) (i : ℕ)
    (hlen : l1.length = l2.length)
    (hagree : ∀ j, j < i → l1.getD j 0 = l2.getD j 0) :
    (buildCore mode windowSize inputSize numClasses encode inputs l1
        buffer pastEnc).attention_inputs.getD i []
      = (buildCore mode windowSize inputSize numClasses encode inputs l2
          buffer pastEnc).attention_inputs.getD i [] := by
  have hng : mode ≠ "generate" := by
    rcases hm with h | h <;> subst h <;> decide
  simp only [buildCore, modeInputBuffer, modePastEncodings, modeTargetLabels,
    if_neg hng]
  rcases Nat.eq_zero_or_pos ((extract_input_windows
      (List.replicate (windowSize - 1) (List.replicate inputSize 0) ++ inputs)
      inputSize windowSize).map encode).length with h0 | hpos
  · have henc : (extract_input_windows
        (List.replicate (windowSize - 1) (List.replicate inputSize 0) ++ inputs)
        inputSize windowSize).map encode = [] := List.length_eq_zero.mp h0
    rw [henc]
    simp [self_similarity, matmulTransposeB, similarity_weighted_attention,
      attentionWeights, matmul]
  · set enc := (extract_input_windows
        (List.replicate (windowSize - 1) (List.replicate inputSize 0) ++ inputs)
        inputSize windowSize).map encode with hencdef
    have hsimlen : (self_similarity enc []).length = enc.length := by
      simp [self_similarity, matmulTransposeB]
    have hkey : (target_encodings [] enc).length = enc.length - 1 := by
      simp [target_encodings]
    have hrows : ∀ row ∈ self_similarity enc [],
        row.length = enc.length - 1 := by
      intro row hrow
      unfold self_similarity matmulTransposeB at hrow
      obtain ⟨r, _, hrw⟩ := List.mem_map.mp hrow
      rw [← hrw, List.length_map, ← hkey]
    have hstep : attentionStep (enc.length - 1) (self_similarity enc []).length i
        = i := by
      rw [hsimlen]
      unfold attentionStep
      omega
    apply similarity_weighted_attention_row_visible_labels _ _ _ _ (enc.length - 1)
      _ hrows (by simp [hlen])
    intro j hj
    rw [hstep] at hj
    rcases Nat.lt_or_ge j (l1.length - 1) with hjl | hjl
    · rw [getD_dropLast_lt l1 0 j hjl, getD_dropLast_lt l2 0 j (by omega)]
      exact hagree j hj
    · rw [getD_of_ge _ 0 j (by rw [List.length_dropLast]; omega),
        getD_of_ge _ 0 j (by rw [List.length_dropLast]; omega)]

/-- Witness for C10 in train mode at `window_size = 1`, two zero input
steps, and label sequences `[0, 1]` and `[0, 0]` that agree below step 1. -/
theorem buildCore_train_eval_no_label_leakage_witness :
    ("train" = "train" ∨ "train" = "eval") ∧
    ([0, 1] : List ℕ).length = ([0, 0] : List ℕ).length ∧
    (∀ j, j < 1 → ([0, 1] : List ℕ).getD j 0 = ([0, 0] : List ℕ).getD j 0) ∧
    (buildCore "train" 1 1 2 (fun _ => [1]) [[0], [0]] [0, 1]
        [] []).attention_inputs.getD 1 []
      = (buildCore "train" 1 1 2 (fun _ => [1]) [[0], [0]] [0, 0]
          [] []).attention_inputs.getD 1 [] := by
  refine ⟨Or.inl rfl, rfl, by decide, ?_⟩
  exact buildCore_train_eval_no_label_leakage "train" (Or.inl rfl) 1 1 2
    (fun _ => [1]) [[0], [0]] [0, 1] [0, 0] [] [] 1 rfl (by decide)

end StructuredMelodyRnn
